import Mathlib

/-!
Shallow embedding of the NTSC comb filter (`src/tools/ld-comb-ntsc/comb.cpp`)
of the ld-decode tools, together with theorems settling the specification
claims about it.

Conventions of the embedding:
* `qreal` (C++ `double`) is modelled as `ℚ`; all arithmetic appearing in the
  verified routines is exact on the rationals.
* 16-bit samples (`quint16`) are modelled as `ℕ`; C++ integer division by a
  positive constant (truncation toward zero) is modelled by `cdiv`.
* `QByteArray` is modelled as `List ℕ` of bytes; out-of-range reads yield 0.
* The per-pixel planes (`clpbuffer[i].pixel`, the YIQ buffer) are modelled as
  total functions `ℕ → ℕ → _` updated pointwise, matching the fixed-size
  arrays of the source.
* The `for` loops of the source become the structural folds `foldRange`
  (a plain counted loop) and `foldLines` (the line loop threading the two
  phase-inversion flags exactly as `split1D`, `splitIQ` and `adjustY` do).
-/

namespace Comb

/-- C++ truncating integer division by a positive constant
(`a / b` on `qint32` truncates toward zero). -/
def cdiv (a : ℤ) (b : ℕ) : ℤ :=
  if 0 ≤ a then ((a.toNat / b : ℕ) : ℤ) else -(((-a).toNat / b : ℕ) : ℤ)

/-- One YIQ pixel (`yiq.h`): luma `y` plus signed chroma `i`, `q`. -/
structure YIQ where
  y : ℚ
  i : ℚ
  q : ℚ
deriving DecidableEq

/-- A chroma-estimate plane, `clpbuffer[n].pixel` of the source, indexed by
(line, column). -/
abbrev Plane := ℕ → ℕ → ℚ

/-- The YIQ plane, indexed by (line, column). -/
abbrev YiqBuf := ℕ → ℕ → YIQ

/-- `Comb::Configuration` of `comb.h`, the fields used by `comb.cpp`. -/
structure Configuration where
  blackAndWhite : Bool
  whitePoint100 : Bool
  colorlpf : Bool
  colorlpf_hq : Bool
  fieldWidth : ℕ
  fieldHeight : ℕ
  activeVideoStart : ℕ
  activeVideoEnd : ℕ
  firstVisibleFrameLine : ℕ
  blackIre : ℤ
  whiteIre : ℤ
  use3D : Bool
  showOpticalFlowMap : Bool

/-- `Comb::postConfigurationTasks`: `frameHeight = (fieldHeight * 2) - 1`. -/
def frameHeight (cfg : Configuration) : ℕ :=
  cfg.fieldHeight * 2 - 1

/-- `Comb::postConfigurationTasks`:
`irescale = (whiteIre - blackIre) / 100` (integer division on `qint32`,
then widened to `qreal`). -/
def irescale (cfg : Configuration) : ℚ :=
  ((cdiv (cfg.whiteIre - cfg.blackIre) 100 : ℤ) : ℚ)

/-- `Comb::clamp`. -/
def clamp (v low high : ℚ) : ℚ :=
  if v < low then low
  else if v > high then high
  else v

/-- Modelled from the spec: the `Filter` class lives in `deemp.h`, which is
not part of the sources; §4.2/§4.6 describe it as a short FIR running filter
fed one sample at a time.  The coefficient list is the filter identity; the
history holds the most recent inputs. -/
structure Filter where
  coeffs : List ℚ
  hist : List ℚ

/-- Modelled from the spec: feeding one sample to the FIR running filter
returns the updated filter and the filtered output. -/
def Filter.feed (f : Filter) (x : ℚ) : Filter × ℚ :=
  let hist := (x :: f.hist).take f.coeffs.length
  (⟨f.coeffs, hist⟩, ((f.coeffs.zip hist).map (fun p => p.1 * p.2)).sum)

/-- Modelled from the spec: the filter-coefficient tables `f_colorlpi`,
`f_colorlpq`, `f_nr`, `f_nrc` are declared in `deemp.h`, which is not part of
the sources; they are abstracted as coefficient lists. -/
structure DeempCoeffs where
  colorlpi : List ℚ
  colorlpq : List ℚ
  nr : List ℚ
  nrc : List ℚ

/-- Modelled from the spec: per §4.6 the high-quality chroma low-pass variant
is wired to the same filter coefficients as the standard one, so the missing
`deemp.h` is modelled with `colorlpq` equal to `colorlpi`. -/
def specDeempCoeffs (c nr nrc : List ℚ) : DeempCoeffs :=
  ⟨c, c, nr, nrc⟩

/-- `FrameBuffer` of `comb.h`: raw interlaced sample bytes, the three chroma
estimate planes (1D, 2D, 3D), the YIQ plane, the motion map, the burst level
and the two field phase IDs. -/
structure FrameBuffer where
  rawbuffer : List ℕ
  clp0 : Plane
  clp1 : Plane
  clp2 : Plane
  yiqBuffer : YiqBuf
  kValues : List ℚ
  burstLevel : ℚ
  firstFieldPhaseID : ℕ
  secondFieldPhaseID : ℕ

/-- The previous-frame buffer before any call to `process`: a
default-constructed `FrameBuffer`, its raw buffer empty (every sample read
from it yields 0) and its planes zero. -/
def FrameBuffer.initial : FrameBuffer :=
  { rawbuffer := []
    clp0 := fun _ _ => 0
    clp1 := fun _ _ => 0
    clp2 := fun _ _ => 0
    yiqBuffer := fun _ _ => ⟨0, 0, 0⟩
    kValues := []
    burstLevel := 0
    firstFieldPhaseID := 0
    secondFieldPhaseID := 0 }

/-- Little-endian `quint16` read at word index `idx` of a byte buffer, as in
`reinterpret_cast<quint16 *>(rawbuffer.data())`.  Out-of-range bytes read 0. -/
def wordAt (buf : List ℕ) (idx : ℕ) : ℕ :=
  buf.getD (2 * idx) 0 + 256 * buf.getD (2 * idx + 1) 0

/-- The raw sample `line[h]` of frame line `L`:
`quint16` read at `(L * fieldWidth) + h`. -/
def rawSample (cfg : Configuration) (buf : List ℕ) (L h : ℕ) : ℕ :=
  wordAt buf (L * cfg.fieldWidth + h)

/-- Pointwise update of a (line, column)-indexed buffer. -/
def upd2 {α : Type} (f : ℕ → ℕ → α) (i j : ℕ) (v : α) : ℕ → ℕ → α :=
  fun i' j' => if i' = i ∧ j' = j then v else f i' j'

/-- Pointwise update of an index-addressed vector such as `hplinef`. -/
def upd1 {α : Type} (f : ℕ → α) (i : ℕ) (v : α) : ℕ → α :=
  fun j => if j = i then v else f j

/-- Counted loop: `foldRange body k i s` runs `body` on indices
`i, i+1, …, i+k-1`, threading the state. -/
def foldRange {σ : Type} (body : ℕ → σ → σ) : ℕ → ℕ → σ → σ
  | 0, _, s => s
  | k + 1, i, s => foldRange body k (i + 1) (body i s)

/-- One step of the phase-inversion tracking at line `L`: the flag of the
line's parity is toggled (`topInvertphase` on even lines, `bottomInvertphase`
on odd ones). -/
def tbStep (L : ℕ) (tb : Bool × Bool) : Bool × Bool :=
  if L % 2 = 0 then (!tb.1, tb.2) else (tb.1, !tb.2)

/-- The pair of inversion flags after the lines `L0, …, L0+k-1` have been
visited, starting from `tb`. -/
def tbAdvance (L0 : ℕ) (tb : Bool × Bool) : ℕ → Bool × Bool
  | 0 => tb
  | k + 1 => tbStep (L0 + k) (tbAdvance L0 tb k)

/-- The `invertphase` value in effect while line `L` is processed, when the
line loop started at `L0` with initial flags `tb`: the flag of `L`'s parity
after its toggle at `L`. -/
def invertAt (L0 : ℕ) (tb : Bool × Bool) (L : ℕ) : Bool :=
  let tb1 := tbStep L (tbAdvance L0 tb (L - L0))
  if L % 2 = 0 then tb1.1 else tb1.2

/-- The line loop shared by `split1D`, `splitIQ` and `adjustY`: runs over `k`
lines from `L0`, toggling the inversion flag of each line's parity and
handing the toggled value to the body. -/
def foldLines {σ : Type} (body : ℕ → Bool → σ → σ) : ℕ → ℕ → Bool × Bool → σ → σ
  | 0, _, _, s => s
  | k + 1, L, tb, s =>
    let inv := if L % 2 = 0 then !tb.1 else !tb.2
    foldLines body k (L + 1) (tbStep L tb) (body L inv s)

/-- `topInvertphase` initialisation: set when the first field's phase ID is
2 or 3. -/
def topInit (fpid : ℕ) : Bool :=
  fpid == 2 || fpid == 3

/-- `bottomInvertphase` initialisation: set when the second field's phase ID
is 1 or 4. -/
def botInit (spid : ℕ) : Bool :=
  spid == 1 || spid == 4

/-- The initial inversion-flag pair of a frame buffer's two phase IDs. -/
def tbInit (fpid spid : ℕ) : Bool × Bool :=
  (topInit fpid, botInit spid)

/-- The raw chroma sample of `split1D`:
`tc1 = ((line[h + 2] + line[h - 2]) / 2) - line[h]` (integer arithmetic on
the samples, then widened to `qreal`). -/
def tc1base (cfg : Configuration) (raw : List ℕ) (L h : ℕ) : ℚ :=
  (((rawSample cfg raw L (h + 2) + rawSample cfg raw L (h - 2)) / 2 : ℕ) : ℚ)
    - (rawSample cfg raw L h : ℚ)

/-- The column body of `Comb::split1D`: computes `tc1`, conditionally negates
it, feeds the phase-selected running filter (the filtered value `tc1f` is
computed but never stored), undoes the negation and records `tc1` in the 1D
plane.  State: the two per-line filters and the 1D plane. -/
def split1Dcol (cfg : Configuration) (raw : List ℕ) (L : ℕ) (invert : Bool)
    (h : ℕ) (s : Filter × Filter × Plane) : Filter × Filter × Plane :=
  let tc1 : ℚ := tc1base cfg raw L h
  let tc1 := if invert then tc1 else -tc1
  let fed : (Filter × Filter) × ℚ :=
    if h % 4 = 0 then
      let r := s.1.feed tc1
      ((r.1, s.2.1), r.2)
    else if h % 4 = 1 then
      let r := s.2.1.feed (-tc1)
      ((s.1, r.1), -r.2)
    else if h % 4 = 2 then
      let r := s.1.feed (-tc1)
      ((r.1, s.2.1), -r.2)
    else
      let r := s.2.1.feed tc1
      ((s.1, r.1), r.2)
  let tc1 := if invert then tc1 else -tc1
  (fed.1.1, fed.1.2, upd2 s.2.2 L h tc1)

/-- One line of `Comb::split1D`: fresh filters `f_1di`, `f_1dq` from the
`deemp.h` tables, then the column loop over the active region. -/
def split1Dline (d : DeempCoeffs) (cfg : Configuration) (raw : List ℕ)
    (L : ℕ) (invert : Bool) (p : Plane) : Plane :=
  (foldRange (split1Dcol cfg raw L invert)
    (cfg.activeVideoEnd - cfg.activeVideoStart) cfg.activeVideoStart
    (⟨d.colorlpi, []⟩, ⟨d.colorlpq, []⟩, p)).2.2

/-- `Comb::split1D`: the line loop with phase-inversion tracking, writing the
1D chroma plane. -/
def split1D (d : DeempCoeffs) (cfg : Configuration) (fb : FrameBuffer) :
    FrameBuffer :=
  let p :=
    foldLines (fun L inv p => split1Dline d cfg fb.rawbuffer L inv p)
      (frameHeight cfg - cfg.firstVisibleFrameLine) cfg.firstVisibleFrameLine
      (tbInit fb.firstFieldPhaseID fb.secondFieldPhaseID) fb.clp0
  { fb with clp0 := p }

/-- The value the spec's words assign to the stored 1D estimate: the raw
chroma sample sign-corrected by the line's phase-inversion state (negated on
non-inverted lines, as `split1D`'s correction does). -/
def split1DspecValue (cfg : Configuration) (fb : FrameBuffer) (L h : ℕ) : ℚ :=
  if invertAt cfg.firstVisibleFrameLine
      (tbInit fb.firstFieldPhaseID fb.secondFieldPhaseID) L
  then tc1base cfg fb.rawbuffer L h
  else -tc1base cfg fb.rawbuffer L h

/-- The confidence weights of `Comb::split2D` at one pixel, after the raw
accumulation, the `[0,1]` clamp, the 3x tie-break zeroing, the `sc` gain
(floored at 1) and the degenerate both-zero rule.  Inputs: `irescale`, the 1D
values `C0 = currentLine[h]`, `C1 = currentLine[h-1]`,
`P0 = previousLine[h]`, `P1 = previousLine[h-1]`, `N0 = nextLine[h]`,
`N1 = nextLine[h-1]`.  Returns `(kp, kn, sc)`. -/
def split2Dweights (ire C0 C1 P0 P1 N0 N1 : ℚ) : ℚ × ℚ × ℚ :=
  let kp := (|(|C0|) - (|P0|)| + |(|C1|) - (|P1|)| - ((|C0|) + (|C1|)) * (1/10)) / 2
  let kn := (|(|C0|) - (|N0|)| + |(|C1|) - (|N1|)| - ((|C0|) + (|N1|)) * (1/10)) / 2
  let p2drange := 45 * ire
  let kp := clamp (1 - kp / p2drange) 0 1
  let kn := clamp (1 - kn / p2drange) 0 1
  if kn > 0 ∨ kp > 0 then
    if kn > 3 * kp then
      let sc := 2 / (kn + 0)
      (0, kn, if sc < 1 then 1 else sc)
    else if kp > 3 * kn then
      let sc := 2 / (0 + kp)
      (kp, 0, if sc < 1 then 1 else sc)
    else
      let sc := 2 / (kn + kp)
      (kp, kn, if sc < 1 then 1 else sc)
  else
    if |(|P0|) - (|N0|)| - |(N0 + P0) * (2/10)| ≤ 0 then (1, 1, 1)
    else (kp, kn, 1)

/-- The 2D chroma estimate `Comb::split2D` stores at (L, h):
`(((C[L][h] - C[L-2][h]) * kp * sc) + ((C[L][h] - C[L+2][h]) * kn * sc)) / 8`. -/
def split2Dvalue (ire : ℚ) (c : Plane) (L h : ℕ) : ℚ :=
  let w := split2Dweights ire (c L h) (c L (h - 1)) (c (L - 2) h)
    (c (L - 2) (h - 1)) (c (L + 2) h) (c (L + 2) (h - 1))
  ((c L h - c (L - 2) h) * w.1 * w.2.2 + (c L h - c (L + 2) h) * w.2.1 * w.2.2) / 8

/-- One line of `Comb::split2D`: only lines with `4 ≤ L < frameHeight - 1`
are filtered; the others are skipped. -/
def split2Dline (cfg : Configuration) (c : Plane) (L : ℕ) (p : Plane) : Plane :=
  if 4 ≤ L ∧ L < frameHeight cfg - 1 then
    foldRange (fun h s => upd2 s L h (split2Dvalue (irescale cfg) c L h))
      (cfg.activeVideoEnd - cfg.activeVideoStart) cfg.activeVideoStart p
  else p

/-- `Comb::split2D`: refines the 1D plane into the 2D plane. -/
def split2D (cfg : Configuration) (fb : FrameBuffer) : FrameBuffer :=
  let p :=
    foldRange (fun L p => split2Dline cfg fb.clp0 L p)
      (frameHeight cfg - cfg.firstVisibleFrameLine)
      cfg.firstVisibleFrameLine fb.clp1
  { fb with clp1 := p }

/-- The 2D estimate as the spec's words give it: the same expression with the
post-rule weights but without the `sc` gain factor. -/
def split2DspecValue (ire : ℚ) (c : Plane) (L h : ℕ) : ℚ :=
  let w := split2Dweights ire (c L h) (c L (h - 1)) (c (L - 2) h)
    (c (L - 2) (h - 1)) (c (L + 2) h) (c (L + 2) (h - 1))
  ((c L h - c (L - 2) h) * w.1 + (c L h - c (L + 2) h) * w.2.1) / 8

/-- The per-pixel 3D estimate of `Comb::split3D`:
`(previousLine[h] - currentLine[h]) / 2` on `qint32`, truncation toward
zero, then widened to `qreal`. -/
def split3Dvalue (prev cur : ℕ) : ℚ :=
  ((cdiv ((prev : ℤ) - (cur : ℤ)) 2 : ℤ) : ℚ)

/-- `Comb::split3D`: writes the 3D chroma plane of the current frame from the
raw samples of the current and the previous frame. -/
def split3D (cfg : Configuration) (cur prev : FrameBuffer) : FrameBuffer :=
  let p :=
    foldRange (fun L p =>
        foldRange (fun h s => upd2 s L h
            (split3Dvalue (rawSample cfg prev.rawbuffer L h)
              (rawSample cfg cur.rawbuffer L h)))
          (cfg.activeVideoEnd - cfg.activeVideoStart) cfg.activeVideoStart p)
      (frameHeight cfg - cfg.firstVisibleFrameLine)
      cfg.firstVisibleFrameLine cur.clp2
  { cur with clp2 := p }

/-- The motion value `kValues[(lineNumber * 910) + h]` read by `splitIQ`
(note the hard-coded 910). -/
def kValueAt (fb : FrameBuffer) (L h : ℕ) : ℚ :=
  fb.kValues.getD (L * 910 + h) 0

/-- The chroma estimate `cavg` picked by `Comb::splitIQ` at one pixel: the 2D
value, or, when 3D mode is on and a motion map is present, the motion-mixed
blend of the 2D and 3D values. -/
def iqMix (cfg : Configuration) (fb : FrameBuffer) (L h : ℕ) : ℚ :=
  let cavg := fb.clp1 L h
  if cfg.use3D = true ∧ fb.kValues ≠ [] then
    fb.clp1 L h * kValueAt fb L h + fb.clp2 L h * (1 - kValueAt fb L h)
  else cavg

/-- `cavg` after `splitIQ`'s inversion correction
(`if (!invertphase) cavg = -cavg`). -/
def iqSigned (cfg : Configuration) (fb : FrameBuffer) (L : ℕ) (invert : Bool)
    (h : ℕ) : ℚ :=
  let cavg := iqMix cfg fb L h
  if invert then cavg else -cavg

/-- The I value `splitIQ` computes at an odd-phase column
(phase 1: `si = -cavg`; phase 3: `si = cavg`). -/
def splitIQnewI (cfg : Configuration) (fb : FrameBuffer) (L : ℕ) (invert : Bool)
    (h : ℕ) : ℚ :=
  if h % 4 = 1 then -iqSigned cfg fb L invert h else iqSigned cfg fb L invert h

/-- The Q value `splitIQ` computes at an even-phase column
(phase 0: `sq = cavg`; phase 2: `sq = -cavg`). -/
def splitIQnewQ (cfg : Configuration) (fb : FrameBuffer) (L : ℕ) (invert : Bool)
    (h : ℕ) : ℚ :=
  if h % 4 = 0 then iqSigned cfg fb L invert h else -iqSigned cfg fb L invert h

/-- The running value of `si` after `splitIQ` has processed the columns of
`[cs, m)` of a line: 0 before the first odd (phase 1 or 3) column, afterwards
the I value computed at the most recent odd column (`m-1` or `m-2`). -/
def siAfter (cfg : Configuration) (fb : FrameBuffer) (L : ℕ) (invert : Bool)
    (cs m : ℕ) : ℚ :=
  if m ≤ cs then 0
  else if (m - 1) % 2 = 1 then splitIQnewI cfg fb L invert (m - 1)
  else if m - 1 ≤ cs then 0
  else splitIQnewI cfg fb L invert (m - 2)

/-- The running value of `sq` after `splitIQ` has processed the columns of
`[cs, m)` of a line: 0 before the first even (phase 0 or 2) column,
afterwards the Q value computed at the most recent even column. -/
def sqAfter (cfg : Configuration) (fb : FrameBuffer) (L : ℕ) (invert : Bool)
    (cs m : ℕ) : ℚ :=
  if m ≤ cs then 0
  else if (m - 1) % 2 = 0 then splitIQnewQ cfg fb L invert (m - 1)
  else if m - 1 ≤ cs then 0
  else splitIQnewQ cfg fb L invert (m - 2)

/-- The column body of `Comb::splitIQ`: updates `si` or `sq` by phase and
writes `{y = line[h], i = si, q = sq}`.  State: `(si, sq, yiqBuffer)`. -/
def splitIQcol (cfg : Configuration) (fb : FrameBuffer) (L : ℕ) (invert : Bool)
    (h : ℕ) (s : ℚ × ℚ × YiqBuf) : ℚ × ℚ × YiqBuf :=
  let cavg := iqSigned cfg fb L invert h
  let si := if h % 4 = 1 then -cavg else if h % 4 = 3 then cavg else s.1
  let sq := if h % 4 = 0 then cavg else if h % 4 = 2 then -cavg else s.2.1
  (si, sq, upd2 s.2.2 L h ⟨(rawSample cfg fb.rawbuffer L h : ℚ), si, sq⟩)

/-- One line of `Comb::splitIQ`: `si` and `sq` start at 0, then the column
loop over the active region. -/
def splitIQline (cfg : Configuration) (fb : FrameBuffer) (L : ℕ)
    (invert : Bool) (yb : YiqBuf) : YiqBuf :=
  (foldRange (splitIQcol cfg fb L invert)
    (cfg.activeVideoEnd - cfg.activeVideoStart) cfg.activeVideoStart
    (0, 0, yb)).2.2

/-- `Comb::splitIQ`: clears the YIQ buffer, then the line loop with
phase-inversion tracking. -/
def splitIQ (cfg : Configuration) (fb : FrameBuffer) : FrameBuffer :=
  let yb :=
    foldLines (fun L inv yb => splitIQline cfg fb L inv yb)
      (frameHeight cfg - cfg.firstVisibleFrameLine) cfg.firstVisibleFrameLine
      (tbInit fb.firstFieldPhaseID fb.secondFieldPhaseID)
      (fun _ _ => ⟨0, 0, 0⟩)
  { fb with yiqBuffer := yb }

/-- The filter/output state threaded by `Comb::filterIQ` along a line. -/
structure IQFilterState where
  fi : Filter
  fq : Filter
  filti : ℚ
  filtq : ℚ
  buf : YiqBuf

/-- The column body of `Comb::filterIQ`: phases 0 and 2 advance the I filter,
phases 1 and 3 the Q filter, and the current outputs are written back at
column `h - qoffset` with `qoffset = 2`. -/
def filterIQcol (L h : ℕ) (s : IQFilterState) : IQFilterState :=
  let s :=
    if h % 4 = 0 then
      let r := s.fi.feed ((s.buf L h).i)
      { s with fi := r.1, filti := r.2 }
    else if h % 4 = 1 then
      let r := s.fq.feed ((s.buf L h).q)
      { s with fq := r.1, filtq := r.2 }
    else if h % 4 = 2 then
      let r := s.fi.feed ((s.buf L h).i)
      { s with fi := r.1, filti := r.2 }
    else
      let r := s.fq.feed ((s.buf L h).q)
      { s with fq := r.1, filtq := r.2 }
  let p := s.buf L (h - 2)
  { s with buf := upd2 s.buf L (h - 2) ⟨p.y, s.filti, s.filtq⟩ }

/-- `Comb::filterIQ`: per line, fresh filters selected by `colorlpf_hq`
(`f_i` from `f_colorlpi` either way, `f_q` from `f_colorlpi` in high quality
and `f_colorlpq` otherwise), then the column loop. -/
def filterIQ (d : DeempCoeffs) (cfg : Configuration) (yb : YiqBuf) : YiqBuf :=
  foldRange (fun L b =>
      (foldRange (fun h s => filterIQcol L h s)
        (cfg.activeVideoEnd - cfg.activeVideoStart) cfg.activeVideoStart
        { fi := ⟨if cfg.colorlpf_hq then d.colorlpi else d.colorlpi, []⟩
          fq := ⟨if cfg.colorlpf_hq then d.colorlpi else d.colorlpq, []⟩
          filti := 0
          filtq := 0
          buf := b }).buf)
    (frameHeight cfg - cfg.firstVisibleFrameLine) cfg.firstVisibleFrameLine yb

/-- The clip of the noise reducers: a high-pass residual is limited to the
threshold magnitude before being subtracted. -/
def nrClip (a thr : ℚ) : ℚ :=
  if |a| > thr then (if a > 0 then thr else -thr) else a

/-- The state threaded by `Comb::doCNR` across lines: the two high-pass
filters, the `hplinef` scratch vector (I and Q parts) and the YIQ buffer. -/
structure CNRState where
  fi : Filter
  fq : Filter
  hp : ℕ → ℚ × ℚ
  buf : YiqBuf

/-- `Comb::doCNR`: per line, the I/Q high-pass of `hplinef` is rebuilt over
`[activeVideoStart, activeVideoEnd]`, then the clipped residual at `h + 12`
is subtracted from each active pixel's I and Q.  The threshold is
`nr_c = 0.0 * irescale`. -/
def doCNR (nrc : List ℚ) (cfg : Configuration) (yb : YiqBuf) : YiqBuf :=
  let nr_c : ℚ := 0 * irescale cfg
  (foldRange (fun L (s : CNRState) =>
      let s1 :=
        foldRange (fun h (t : CNRState) =>
            let ri := t.fi.feed ((t.buf L h).i)
            let rq := t.fq.feed ((t.buf L h).q)
            { t with fi := ri.1, fq := rq.1, hp := upd1 t.hp h (ri.2, rq.2) })
          (cfg.activeVideoEnd + 1 - cfg.activeVideoStart) cfg.activeVideoStart s
      foldRange (fun h (t : CNRState) =>
          let ai := nrClip (t.hp (h + 12)).1 nr_c
          let aq := nrClip (t.hp (h + 12)).2 nr_c
          let p := t.buf L h
          { t with buf := upd2 t.buf L h ⟨p.y, p.i - ai, p.q - aq⟩ })
        (cfg.activeVideoEnd - cfg.activeVideoStart) cfg.activeVideoStart s1)
    (frameHeight cfg - cfg.firstVisibleFrameLine) cfg.firstVisibleFrameLine
    { fi := ⟨nrc, []⟩, fq := ⟨nrc, []⟩, hp := fun _ => (0, 0), buf := yb }).buf

/-- The state threaded by `Comb::doYNR` across lines. -/
structure YNRState where
  fy : Filter
  hp : ℕ → ℚ
  buf : YiqBuf

/-- `Comb::doYNR`: as `doCNR` but on Y only, with threshold
`nr_y = 1.0 * irescale`. -/
def doYNR (nr : List ℚ) (cfg : Configuration) (yb : YiqBuf) : YiqBuf :=
  let nr_y : ℚ := 1 * irescale cfg
  (foldRange (fun L (s : YNRState) =>
      let s1 :=
        foldRange (fun h (t : YNRState) =>
            let ry := t.fy.feed ((t.buf L h).y)
            { t with fy := ry.1, hp := upd1 t.hp h ry.2 })
          (cfg.activeVideoEnd + 1 - cfg.activeVideoStart) cfg.activeVideoStart s
      foldRange (fun h (t : YNRState) =>
          let a := nrClip (t.hp (h + 12)) nr_y
          let p := t.buf L h
          { t with buf := upd2 t.buf L h ⟨p.y - a, p.i, p.q⟩ })
        (cfg.activeVideoEnd - cfg.activeVideoStart) cfg.activeVideoStart s1)
    (frameHeight cfg - cfg.firstVisibleFrameLine) cfg.firstVisibleFrameLine
    { fy := ⟨nr, []⟩, hp := fun _ => 0, buf := yb }).buf

/-- The correction term of `Comb::adjustY` for the pixel `p` read at column
`h + 2`: phase 0 picks `+q`, 1 picks `-i`, 2 picks `-q`, 3 picks `+i`, and
the result is negated when `invertphase` is set. -/
def adjustYcomp (p : YIQ) (h : ℕ) (invert : Bool) : ℚ :=
  let comp :=
    if h % 4 = 0 then p.q
    else if h % 4 = 1 then -p.i
    else if h % 4 = 2 then -p.q
    else p.i
  if invert then -comp else comp

/-- The pixel `Comb::adjustY` stores at column `h`: the whole pixel read at
column `h + 2`, with the correction added to its Y. -/
def adjustYpix (yb : YiqBuf) (L : ℕ) (invert : Bool) (h : ℕ) : YIQ :=
  let p := yb L (h + 2)
  ⟨p.y + adjustYcomp p h invert, p.i, p.q⟩

/-- The column body of `Comb::adjustY`: reads the pixel at `h + 2` from the
buffer being modified and stores the adjusted pixel at `h`. -/
def adjustYcol (L : ℕ) (invert : Bool) (h : ℕ) (yb : YiqBuf) : YiqBuf :=
  upd2 yb L h (adjustYpix yb L invert h)

/-- `Comb::adjustY`: the line loop with phase-inversion tracking over the
column loop. -/
def adjustY (cfg : Configuration) (yb : YiqBuf) (fpid spid : ℕ) : YiqBuf :=
  foldLines (fun L inv s =>
      foldRange (fun h b => adjustYcol L inv h b)
        (cfg.activeVideoEnd - cfg.activeVideoStart) cfg.activeVideoStart s)
    (frameHeight cfg - cfg.firstVisibleFrameLine) cfg.firstVisibleFrameLine
    (tbInit fpid spid) yb

/-- Write a 16-bit word (low byte first) at word index `wi` of a byte
buffer, as the `quint16` stores of `yiqToRgbFrame` do. -/
def setWord (buf : List ℕ) (wi v : ℕ) : List ℕ :=
  (buf.set (2 * wi) (v % 256)).set (2 * wi + 1) (v / 256 % 256)

/-- C++ `static_cast<qint32>` of a `double`: truncation toward zero. -/
def ctrunc (q : ℚ) : ℤ :=
  if 0 ≤ q then q.floor else -(-q).floor

/-- `Comb::yiqToRgbFrame`: allocates and zero-fills
`fieldWidth * frameHeight * 3 * 2` bytes, then writes, for each visible line
and active column, the three converted channel words at the offset
`(activeVideoStart * 3) + 6` into the line.  The YIQ→RGB conversion itself
(`RGB::conv` of `rgb.h`/`yiq.h`, not part of the sources) is a parameter
`conv` taking white IRE, black IRE, the white-point and monochrome flags, the
pixel and the burst level. -/
def yiqToRgbFrame (conv : ℤ → ℤ → Bool → Bool → YIQ → ℚ → ℕ × ℕ × ℕ)
    (cfg : Configuration) (yb : YiqBuf) (burst : ℚ) : List ℕ :=
  foldRange (fun L buf =>
      foldRange (fun h s =>
          let rgb := conv cfg.whiteIre cfg.blackIre cfg.whitePoint100
            cfg.blackAndWhite (yb L h) burst
          let base := cfg.fieldWidth * 3 * L
          let o := cfg.activeVideoStart * 3 + 6 + 3 * (h - cfg.activeVideoStart)
          setWord (setWord (setWord s (base + o) (rgb.1 % 65536))
            (base + o + 1) (rgb.2.1 % 65536)) (base + o + 2) (rgb.2.2 % 65536))
        (cfg.activeVideoEnd - cfg.activeVideoStart) cfg.activeVideoStart buf)
    (frameHeight cfg - cfg.firstVisibleFrameLine) cfg.firstVisibleFrameLine
    (List.replicate (cfg.fieldWidth * frameHeight cfg * 3 * 2) 0)

/-- `Comb::overlayOpticalFlowMap`: adds the motion intensity to the red and
blue words of the RGB frame (the read for green comes from offset `+2`, as in
the source), clamping at 65535; stores go through the `quint16` cast
(reduction mod 65536). -/
def overlayOpticalFlowMap (cfg : Configuration) (fb : FrameBuffer)
    (rgb : List ℕ) : List ℕ :=
  foldRange (fun L buf =>
      foldRange (fun h s =>
          let intensity := ctrunc (kValueAt fb L h * 65535)
          let base := cfg.fieldWidth * 3 * L
          let red := (wordAt s (base + h * 3) : ℤ) + intensity
          let green := (wordAt s (base + h * 3 + 2) : ℤ)
          let blue := (wordAt s (base + h * 3 + 2) : ℤ) + intensity
          let red := if red > 65535 then 65535 else red
          let green := if green > 65535 then 65535 else green
          let blue := if blue > 65535 then 65535 else blue
          setWord (setWord (setWord s (base + h * 3) (red.emod 65536).toNat)
              (base + h * 3 + 1) (green.emod 65536).toNat)
            (base + h * 3 + 2) (blue.emod 65536).toNat)
        (cfg.activeVideoEnd - cfg.activeVideoStart) cfg.activeVideoStart buf)
    (frameHeight cfg - cfg.firstVisibleFrameLine) cfg.firstVisibleFrameLine rgb

/-- `QByteArray::mid(pos, len)` on a byte list. -/
def midBytes (buf : List ℕ) (pos len : ℕ) : List ℕ :=
  (buf.drop pos).take len

/-- The interlacing loop of `Comb::process`: for each even frame line below
`frameHeight`, one line of each field is appended to the raw buffer. -/
def interlace (cfg : Configuration) (f1 f2 : List ℕ) : List ℕ :=
  foldRange (fun i acc =>
      acc ++ midBytes f1 (i * cfg.fieldWidth * 2) (cfg.fieldWidth * 2)
        ++ midBytes f2 (i * cfg.fieldWidth * 2) (cfg.fieldWidth * 2))
    ((frameHeight cfg + 1) / 2) 0 []

/-- Modelled from the spec: the pieces `process` uses that are outside the
sources — the `deemp.h` coefficient tables, the YIQ→RGB conversion
(`RGB::conv`) and the dense optical-flow estimator (§4.4, an external
collaborator producing the per-pixel motion map from the YIQ plane). -/
structure Externals where
  deemp : DeempCoeffs
  conv : ℤ → ℤ → Bool → Bool → YIQ → ℚ → ℕ × ℕ × ℕ
  flow : YiqBuf → List ℚ

/-- The state of a `Comb` instance across calls: its configuration and the
retained previous-frame buffer used by the 3D path. -/
structure CombState where
  configuration : Configuration
  previousFrameBuffer : FrameBuffer

/-- `Comb::process`: interlaces the two field buffers, runs the 2D pipeline
(split1D, split2D, splitIQ, adjustY on a copy, optional filterIQ, doYNR,
doCNR, RGB conversion), and in 3D mode additionally runs the optical flow,
split3D against the retained previous frame, a second splitIQ/adjustY/filter
pass, the optional motion-map overlay, and stores the current frame buffer
as the new previous frame.  Returns the RGB byte buffer and the new state. -/
def process (ext : Externals) (st : CombState) (f1 f2 : List ℕ) (burst : ℚ)
    (fpid spid : ℕ) : List ℕ × CombState :=
  let cfg := st.configuration
  let fb0 : FrameBuffer :=
    { rawbuffer := interlace cfg f1 f2
      clp0 := fun _ _ => 0
      clp1 := fun _ _ => 0
      clp2 := fun _ _ => 0
      yiqBuffer := fun _ _ => ⟨0, 0, 0⟩
      kValues := []
      burstLevel := burst
      firstFieldPhaseID := fpid
      secondFieldPhaseID := spid }
  if cfg.use3D then
    let fb1 := split1D ext.deemp cfg fb0
    let fb2 := split2D cfg fb1
    let fb3 := splitIQ cfg fb2
    let temp := fb3.yiqBuffer
    let temp := adjustY cfg temp fpid spid
    let fb4 :=
      if cfg.colorlpf then
        { fb3 with yiqBuffer := filterIQ ext.deemp cfg fb3.yiqBuffer }
      else fb3
    let temp := doYNR ext.deemp.nr cfg temp
    let _temp := doCNR ext.deemp.nrc cfg temp
    let fb5 := { fb4 with kValues := ext.flow fb4.yiqBuffer }
    let fb6 := split3D cfg fb5 st.previousFrameBuffer
    let fb7 := splitIQ cfg fb6
    let temp2 := fb7.yiqBuffer
    let temp2 := adjustY cfg temp2 fpid spid
    let fb8 :=
      if cfg.colorlpf then
        { fb7 with yiqBuffer := filterIQ ext.deemp cfg fb7.yiqBuffer }
      else fb7
    let temp2 := doYNR ext.deemp.nr cfg temp2
    let temp2 := doCNR ext.deemp.nrc cfg temp2
    let rgb := yiqToRgbFrame ext.conv cfg temp2 burst
    let rgb :=
      if cfg.showOpticalFlowMap then overlayOpticalFlowMap cfg fb8 rgb else rgb
    (rgb, { st with previousFrameBuffer := fb8 })
  else
    let fb1 := split1D ext.deemp cfg fb0
    let fb2 := split2D cfg fb1
    let fb3 := splitIQ cfg fb2
    let temp := fb3.yiqBuffer
    let temp := adjustY cfg temp fpid spid
    let _fb4 :=
      if cfg.colorlpf then
        { fb3 with yiqBuffer := filterIQ ext.deemp cfg fb3.yiqBuffer }
      else fb3
    let temp := doYNR ext.deemp.nr cfg temp
    let temp := doCNR ext.deemp.nrc cfg temp
    let rgb := yiqToRgbFrame ext.conv cfg temp burst
    (rgb, st)

/-- Empty coefficient tables, used as concrete filter data in the test
fixtures (`split1D` stores a value the filters never influence). -/
def dEmpty : DeempCoeffs :=
  ⟨[], [], [], []⟩

/-- A frame buffer with the given raw bytes and phase IDs and all planes
zero, as `process` builds before the passes run. -/
def mkFb (raw : List ℕ) (fpid spid : ℕ) : FrameBuffer :=
  { rawbuffer := raw
    clp0 := fun _ _ => 0
    clp1 := fun _ _ => 0
    clp2 := fun _ _ => 0
    yiqBuffer := fun _ _ => ⟨0, 0, 0⟩
    kValues := []
    burstLevel := 0
    firstFieldPhaseID := fpid
    secondFieldPhaseID := spid }

/-- A small test configuration: one field line (frame height 1), a two-column
active region `[16, 18)`, IRE range 0–100. -/
def cfgA : Configuration :=
  { blackAndWhite := false
    whitePoint100 := false
    colorlpf := false
    colorlpf_hq := false
    fieldWidth := 20
    fieldHeight := 1
    activeVideoStart := 16
    activeVideoEnd := 18
    firstVisibleFrameLine := 0
    blackIre := 0
    whiteIre := 100
    use3D := false
    showOpticalFlowMap := false }

/-- `cfgA` with a single active column `[16, 17)` and a slightly wider line. -/
def cfgA1 : Configuration :=
  { cfgA with fieldWidth := 21, activeVideoEnd := 17 }

/-- A test configuration tall enough for the 2D separator: frame height 7,
first visible line 4, active columns `[16, 20)`. -/
def cfgB : Configuration :=
  { cfgA with
    fieldWidth := 24
    fieldHeight := 4
    activeVideoEnd := 20
    firstVisibleFrameLine := 4 }

/-- Raw frame whose only nonzero sample is `line[16] = 2` of line 0
(byte 32 of the buffer). -/
def fbC1 : FrameBuffer :=
  mkFb (List.replicate 32 0 ++ [2]) 1 1

/-- Raw frame whose only nonzero sample is `line[18] = 10` of line 0
(byte 36 of the buffer), under phase IDs 2/1 (even lines not inverted). -/
def fbC4 : FrameBuffer :=
  mkFb (List.replicate 36 0 ++ [10]) 2 1

/-- A 1D plane holding 45 at `(2, 16)` and `(6, 16)` and 0 elsewhere. -/
def fbBclp : Plane :=
  fun L h => if (L = 2 ∧ h = 16) ∨ (L = 6 ∧ h = 16) then 45 else 0

/-- A frame buffer whose 1D plane is `fbBclp`, producing equal mid-range 2D
confidence weights at `(4, 16)`. -/
def fbB : FrameBuffer :=
  { mkFb [] 1 1 with clp0 := fbBclp }

/-- A YIQ buffer with `y = i = q = h` at every column `h`. -/
def ybRamp : YiqBuf :=
  fun _ h => ⟨(h : ℚ), (h : ℚ), (h : ℚ)⟩

/-- Concrete externals for the process fixtures: empty filter tables, a
conversion returning black, an optical flow returning no map. -/
def extZ : Externals :=
  { deemp := dEmpty
    conv := fun _ _ _ _ _ _ => (0, 0, 0)
    flow := fun _ => [] }

theorem upd2_same {α : Type} (f : ℕ → ℕ → α) (i j : ℕ) (v : α) :
    upd2 f i j v i j = v := by
  simp [upd2]

theorem upd2_ne {α : Type} (f : ℕ → ℕ → α) (i j : ℕ) (v : α) (i' j' : ℕ)
    (h : ¬(i' = i ∧ j' = j)) : upd2 f i j v i' j' = f i' j' := by
  simp only [upd2]
  exact if_neg h

theorem upd2_self {α : Type} (f : ℕ → ℕ → α) (i j : ℕ) :
    upd2 f i j (f i j) = f := by
  funext a b
  unfold upd2
  split
  · rename_i hab
    rw [hab.1, hab.2]
  · rfl

theorem foldRange_pres {σ : Type} (body : ℕ → σ → σ) (P : σ → Prop)
    (hp : ∀ i s, P s → P (body i s)) :
    ∀ (k i : ℕ) (s : σ), P s → P (foldRange body k i s) := by
  intro k
  induction k with
  | zero => intro i s h; exact h
  | succ k ih => intro i s h; exact ih (i + 1) (body i s) (hp i s h)

theorem foldRange_proj {σ τ : Type} (body : ℕ → σ → σ) (proj : σ → τ)
    (body' : ℕ → τ → τ) (hcomm : ∀ i s, proj (body i s) = body' i (proj s)) :
    ∀ (k i : ℕ) (s : σ),
      proj (foldRange body k i s) = foldRange body' k i (proj s) := by
  intro k
  induction k with
  | zero => intro i s; rfl
  | succ k ih =>
    intro i s
    simp only [foldRange]
    rw [ih, hcomm]

theorem foldRange_id {σ : Type} (body : ℕ → σ → σ)
    (hid : ∀ i s, body i s = s) :
    ∀ (k i : ℕ) (s : σ), foldRange body k i s = s := by
  intro k
  induction k with
  | zero => intro i s; rfl
  | succ k ih =>
    intro i s
    simp only [foldRange]
    rw [hid, ih]

theorem foldRange_upd2_eval {α : Type} (L : ℕ) (v : ℕ → α) :
    ∀ (k h0 : ℕ) (p : ℕ → ℕ → α) (L' h' : ℕ),
      foldRange (fun h s => upd2 s L h (v h)) k h0 p L' h' =
        if L' = L ∧ h0 ≤ h' ∧ h' < h0 + k then v h' else p L' h' := by
  intro k
  induction k with
  | zero =>
    intro h0 p L' h'
    simp only [foldRange]
    rw [if_neg]
    omega
  | succ k ih =>
    intro h0 p L' h'
    simp only [foldRange]
    rw [ih]
    simp only [upd2]
    by_cases hL : L' = L
    · by_cases hh : h' = h0
      · rw [if_neg (show ¬(L' = L ∧ h0 + 1 ≤ h' ∧ h' < h0 + 1 + k) by omega),
          if_pos (show L' = L ∧ h' = h0 from ⟨hL, hh⟩),
          if_pos (show L' = L ∧ h0 ≤ h' ∧ h' < h0 + (k + 1) by omega), hh]
      · by_cases hin : h0 + 1 ≤ h' ∧ h' < h0 + 1 + k
        · rw [if_pos (show L' = L ∧ h0 + 1 ≤ h' ∧ h' < h0 + 1 + k from
              ⟨hL, hin.1, hin.2⟩),
            if_pos (show L' = L ∧ h0 ≤ h' ∧ h' < h0 + (k + 1) by omega)]
        · rw [if_neg (show ¬(L' = L ∧ h0 + 1 ≤ h' ∧ h' < h0 + 1 + k) by omega),
            if_neg (show ¬(L' = L ∧ h' = h0) by omega),
            if_neg (show ¬(L' = L ∧ h0 ≤ h' ∧ h' < h0 + (k + 1)) by omega)]
    · rw [if_neg (show ¬(L' = L ∧ h0 + 1 ≤ h' ∧ h' < h0 + 1 + k) by omega),
        if_neg (show ¬(L' = L ∧ h' = h0) by omega),
        if_neg (show ¬(L' = L ∧ h0 ≤ h' ∧ h' < h0 + (k + 1)) by omega)]

theorem tbAdvance_shift (L0 : ℕ) (tb : Bool × Bool) :
    ∀ k : ℕ, tbAdvance (L0 + 1) (tbStep L0 tb) k = tbAdvance L0 tb (k + 1) := by
  intro k
  induction k with
  | zero =>
    simp only [tbAdvance, Nat.add_zero]
  | succ k ih =>
    show tbStep (L0 + 1 + k) (tbAdvance (L0 + 1) (tbStep L0 tb) k)
        = tbStep (L0 + (k + 1)) (tbAdvance L0 tb (k + 1))
    rw [ih]
    have h : L0 + 1 + k = L0 + (k + 1) := by omega
    rw [h]

theorem invertAt_self (L0 : ℕ) (tb : Bool × Bool) :
    invertAt L0 tb L0 = if L0 % 2 = 0 then !tb.1 else !tb.2 := by
  unfold invertAt tbStep
  rw [Nat.sub_self]
  by_cases h : L0 % 2 = 0 <;> simp [tbAdvance, h]

theorem invertAt_succ (L0 : ℕ) (tb : Bool × Bool) (L : ℕ) (hL : L0 < L) :
    invertAt (L0 + 1) (tbStep L0 tb) L = invertAt L0 tb L := by
  unfold invertAt
  rw [tbAdvance_shift]
  have h : L - (L0 + 1) + 1 = L - L0 := by omega
  rw [h]

theorem foldLines_stable {σ α : Type} (body : ℕ → Bool → σ → σ)
    (read : σ → ℕ → α)
    (stable : ∀ L inv s L', L' ≠ L → read (body L inv s) L' = read s L') :
    ∀ (k L0 : ℕ) (tb : Bool × Bool) (s : σ) (L : ℕ), L < L0 →
      read (foldLines body k L0 tb s) L = read s L := by
  intro k
  induction k with
  | zero => intro L0 tb s L _; rfl
  | succ k ih =>
    intro L0 tb s L hL
    simp only [foldLines]
    rw [ih (L0 + 1) _ _ L (by omega), stable _ _ _ _ (by omega)]

theorem foldLines_eval {σ α : Type} (body : ℕ → Bool → σ → σ)
    (read : σ → ℕ → α) (g : σ → ℕ → Bool → α)
    (stable : ∀ L inv s L', L' ≠ L → read (body L inv s) L' = read s L')
    (geval : ∀ L inv s, read (body L inv s) L = g s L inv)
    (gstable : ∀ L inv s L' inv', L' ≠ L →
      g (body L inv s) L' inv' = g s L' inv') :
    ∀ (k L0 : ℕ) (tb : Bool × Bool) (s : σ) (L : ℕ), L0 ≤ L → L < L0 + k →
      read (foldLines body k L0 tb s) L = g s L (invertAt L0 tb L) := by
  intro k
  induction k with
  | zero => intro L0 tb s L h1 h2; omega
  | succ k ih =>
    intro L0 tb s L h1 h2
    simp only [foldLines]
    by_cases hL : L = L0
    · subst hL
      rw [foldLines_stable body read stable k (L + 1) _ _ L (by omega),
        geval, invertAt_self]
    · rw [ih (L0 + 1) _ _ L (by omega) (by omega),
        gstable _ _ _ _ _ (by omega), invertAt_succ L0 tb L (by omega)]

theorem clamp_unit_mem (v : ℚ) : 0 ≤ clamp v 0 1 ∧ clamp v 0 1 ≤ 1 := by
  unfold clamp
  split_ifs with h1 h2
  · exact ⟨le_refl 0, by norm_num⟩
  · exact ⟨by norm_num, le_refl 1⟩
  · constructor <;> linarith

theorem nrClip_zero_thr (a : ℚ) : nrClip a 0 = 0 := by
  unfold nrClip
  split_ifs with h1 h2
  · rfl
  · exact neg_zero
  · have := abs_nonneg a
    have ha : |a| = 0 := by linarith
    exact abs_eq_zero.mp ha

theorem cdiv_zero_sub (c : ℕ) : cdiv (0 - (c : ℤ)) 2 = -((c / 2 : ℕ) : ℤ) := by
  unfold cdiv
  rcases Nat.eq_zero_or_pos c with h | h
  · subst h
    norm_num
  · rw [if_neg (by omega)]
    have h1 : -(0 - (c : ℤ)) = (c : ℤ) := by ring
    rw [h1, Int.toNat_natCast]

theorem foldRange_lineupd_eval {α : Type} (v : ℕ → ℕ → α) (cs len : ℕ) :
    ∀ (k L0 : ℕ) (p : ℕ → ℕ → α) (L h : ℕ),
      foldRange (fun L' q =>
          foldRange (fun h' s => upd2 s L' h' (v L' h')) len cs q) k L0 p L h =
        if L0 ≤ L ∧ L < L0 + k ∧ cs ≤ h ∧ h < cs + len then v L h
        else p L h := by
  intro k
  induction k with
  | zero =>
    intro L0 p L h
    simp only [foldRange]
    rw [if_neg]
    omega
  | succ k ih =>
    intro L0 p L h
    simp only [foldRange]
    rw [ih, foldRange_upd2_eval]
    by_cases hL : L = L0
    · rw [if_neg (show ¬(L0 + 1 ≤ L ∧ L < L0 + 1 + k ∧ cs ≤ h ∧ h < cs + len)
          by omega)]
      by_cases hh : cs ≤ h ∧ h < cs + len
      · rw [if_pos (show L = L0 ∧ cs ≤ h ∧ h < cs + len from ⟨hL, hh.1, hh.2⟩),
          if_pos (show L0 ≤ L ∧ L < L0 + (k + 1) ∧ cs ≤ h ∧ h < cs + len
            by omega), hL]
      · rw [if_neg (show ¬(L = L0 ∧ cs ≤ h ∧ h < cs + len) by omega),
          if_neg (show ¬(L0 ≤ L ∧ L < L0 + (k + 1) ∧ cs ≤ h ∧ h < cs + len)
            by omega)]
    · by_cases hin : L0 + 1 ≤ L ∧ L < L0 + 1 + k ∧ cs ≤ h ∧ h < cs + len
      · rw [if_pos hin,
          if_pos (show L0 ≤ L ∧ L < L0 + (k + 1) ∧ cs ≤ h ∧ h < cs + len
            by omega)]
      · rw [if_neg hin, if_neg (show ¬(L = L0 ∧ cs ≤ h ∧ h < cs + len) by omega),
          if_neg (show ¬(L0 ≤ L ∧ L < L0 + (k + 1) ∧ cs ≤ h ∧ h < cs + len)
            by omega)]

theorem split3D_clp2_eval (cfg : Configuration) (cur prev : FrameBuffer)
    (L h : ℕ) :
    (split3D cfg cur prev).clp2 L h =
      if cfg.firstVisibleFrameLine ≤ L
          ∧ L < cfg.firstVisibleFrameLine
              + (frameHeight cfg - cfg.firstVisibleFrameLine)
          ∧ cfg.activeVideoStart ≤ h
          ∧ h < cfg.activeVideoStart
              + (cfg.activeVideoEnd - cfg.activeVideoStart)
      then split3Dvalue (rawSample cfg prev.rawbuffer L h)
        (rawSample cfg cur.rawbuffer L h)
      else cur.clp2 L h := by
  simp only [split3D]
  exact foldRange_lineupd_eval _ _ _ _ _ _ _ _

theorem rawSample_nil (cfg : Configuration) (L h : ℕ) :
    rawSample cfg [] L h = 0 := by
  simp [rawSample, wordAt]

theorem split1Dcol_proj (cfg : Configuration) (raw : List ℕ) (L : ℕ)
    (invert : Bool) (h : ℕ) (s : Filter × Filter × Plane) :
    (split1Dcol cfg raw L invert h s).2.2 =
      upd2 s.2.2 L h (tc1base cfg raw L h) := by
  cases invert <;> simp [split1Dcol]

theorem split1Dline_eval (d : DeempCoeffs) (cfg : Configuration)
    (raw : List ℕ) (L : ℕ) (invert : Bool) (p : Plane) (L' h' : ℕ) :
    split1Dline d cfg raw L invert p L' h' =
      if L' = L ∧ cfg.activeVideoStart ≤ h'
          ∧ h' < cfg.activeVideoStart
              + (cfg.activeVideoEnd - cfg.activeVideoStart)
      then tc1base cfg raw L h' else p L' h' := by
  unfold split1Dline
  rw [foldRange_proj (split1Dcol cfg raw L invert) (fun s => s.2.2)
    (fun h q => upd2 q L h (tc1base cfg raw L h))
    (fun i s => split1Dcol_proj cfg raw L invert i s)]
  exact foldRange_upd2_eval L _ _ _ _ _ _

theorem split1D_clp0_eval (d : DeempCoeffs) (cfg : Configuration)
    (fb : FrameBuffer) (L h : ℕ)
    (h1 : cfg.firstVisibleFrameLine ≤ L) (h2 : L < frameHeight cfg)
    (h3 : cfg.activeVideoStart ≤ h) (h4 : h < cfg.activeVideoEnd) :
    (split1D d cfg fb).clp0 L h = tc1base cfg fb.rawbuffer L h := by
  simp only [split1D]
  have he := foldLines_eval
    (fun L inv p => split1Dline d cfg fb.rawbuffer L inv p)
    (fun (p : Plane) L => p L)
    (fun (p : Plane) L inv => fun h' =>
      if cfg.activeVideoStart ≤ h'
          ∧ h' < cfg.activeVideoStart
              + (cfg.activeVideoEnd - cfg.activeVideoStart)
      then tc1base cfg fb.rawbuffer L h' else p L h')
    (by
      intro L inv s L' hne
      funext h'
      beta_reduce
      rw [split1Dline_eval]
      rw [if_neg]
      intro hc
      exact hne hc.1)
    (by
      intro L inv s
      funext h'
      beta_reduce
      rw [split1Dline_eval]
      by_cases hc : cfg.activeVideoStart ≤ h'
          ∧ h' < cfg.activeVideoStart
              + (cfg.activeVideoEnd - cfg.activeVideoStart)
      · rw [if_pos ⟨rfl, hc.1, hc.2⟩, if_pos hc]
      · rw [if_neg (fun hx => hc ⟨hx.2.1, hx.2.2⟩), if_neg hc])
    (by
      intro L inv s L' inv' hne
      funext h'
      beta_reduce
      by_cases hc : cfg.activeVideoStart ≤ h'
          ∧ h' < cfg.activeVideoStart
              + (cfg.activeVideoEnd - cfg.activeVideoStart)
      · rw [if_pos hc, if_pos hc]
      · rw [if_neg hc, if_neg hc, split1Dline_eval, if_neg]
        intro hx
        exact hne hx.1)
    (frameHeight cfg - cfg.firstVisibleFrameLine) cfg.firstVisibleFrameLine
    (tbInit fb.firstFieldPhaseID fb.secondFieldPhaseID) fb.clp0 L
    h1 (by omega)
  have he2 := congrFun he h
  simp only at he2
  rw [he2, if_pos (by omega)]

theorem split2D_clp1_eval (cfg : Configuration) (fb : FrameBuffer)
    (L h : ℕ) :
    (split2D cfg fb).clp1 L h =
      if cfg.firstVisibleFrameLine ≤ L
          ∧ L < cfg.firstVisibleFrameLine
              + (frameHeight cfg - cfg.firstVisibleFrameLine)
          ∧ (4 ≤ L ∧ L < frameHeight cfg - 1)
          ∧ cfg.activeVideoStart ≤ h
          ∧ h < cfg.activeVideoStart
              + (cfg.activeVideoEnd - cfg.activeVideoStart)
      then split2Dvalue (irescale cfg) fb.clp0 L h
      else fb.clp1 L h := by
  simp only [split2D]
  have master :
      ∀ (k L0 : ℕ) (p : Plane) (L h : ℕ),
        foldRange (fun L' q => split2Dline cfg fb.clp0 L' q) k L0 p L h =
          if L0 ≤ L ∧ L < L0 + k ∧ (4 ≤ L ∧ L < frameHeight cfg - 1)
              ∧ cfg.activeVideoStart ≤ h
              ∧ h < cfg.activeVideoStart
                  + (cfg.activeVideoEnd - cfg.activeVideoStart)
          then split2Dvalue (irescale cfg) fb.clp0 L h
          else p L h := by
    intro k
    induction k with
    | zero =>
      intro L0 p L h
      simp only [foldRange]
      rw [if_neg]
      omega
    | succ k ih =>
      intro L0 p L h
      simp only [foldRange]
      rw [ih]
      unfold split2Dline
      by_cases hg : 4 ≤ L0 ∧ L0 < frameHeight cfg - 1
      · rw [if_pos hg, foldRange_upd2_eval]
        by_cases hL : L = L0
        · rw [if_neg (by omega)]
          by_cases hh : cfg.activeVideoStart ≤ h
              ∧ h < cfg.activeVideoStart
                  + (cfg.activeVideoEnd - cfg.activeVideoStart)
          · rw [if_pos (show L = L0 ∧ _ ∧ _ from ⟨hL, hh.1, hh.2⟩),
              if_pos (by omega), hL]
          · rw [if_neg (by omega), if_neg (by omega)]
        · by_cases hin : L0 + 1 ≤ L ∧ L < L0 + 1 + k
              ∧ (4 ≤ L ∧ L < frameHeight cfg - 1)
              ∧ cfg.activeVideoStart ≤ h
              ∧ h < cfg.activeVideoStart
                  + (cfg.activeVideoEnd - cfg.activeVideoStart)
          · rw [if_pos hin, if_pos (by omega)]
          · rw [if_neg hin, if_neg (by omega), if_neg (by omega)]
      · rw [if_neg hg]
        by_cases hin : L0 + 1 ≤ L ∧ L < L0 + 1 + k
            ∧ (4 ≤ L ∧ L < frameHeight cfg - 1)
            ∧ cfg.activeVideoStart ≤ h
            ∧ h < cfg.activeVideoStart
                + (cfg.activeVideoEnd - cfg.activeVideoStart)
        · rw [if_pos hin, if_pos (by omega)]
        · rw [if_neg hin, if_neg (by omega)]
  exact master _ _ _ _ _

/-- Claim C1, counterexample: at a concrete first-call input whose current
sample is 2, the value `split3D` stores is not `currentSample / 2` (it is
`-1`, the negated half). -/
theorem split3D_first_frame_claim_cex :
    (split3D cfgA fbC1 FrameBuffer.initial).clp2 0 16 ≠
      (rawSample cfgA fbC1.rawbuffer 0 16 : ℚ) / 2 := by
  rw [split3D_clp2_eval, if_pos (by decide)]
  have h0 : rawSample cfgA FrameBuffer.initial.rawbuffer 0 16 = 0 := by decide
  have h2 : rawSample cfgA fbC1.rawbuffer 0 16 = 2 := by decide
  rw [h0, h2]
  unfold split3Dvalue
  rw [show ((0 : ℕ) : ℤ) - ((2 : ℕ) : ℤ) = 0 - ((2 : ℕ) : ℤ) by norm_num,
    cdiv_zero_sub]
  norm_num

/-- Claim C1 (amended): with 3D mode enabled and no prior call to process
(the retained previous-frame buffer in its initial empty state, every sample
read from it 0), for every visible line and active column the 3D chroma
estimate stored by `split3D` equals the NEGATED half of the current sample,
`-(currentSample / 2)` (truncating division), since the source computes
`(previousSample - currentSample) / 2`. -/
theorem split3D_first_frame_neg_half (cfg : Configuration) (cur : FrameBuffer)
    (L h : ℕ) (h1 : cfg.firstVisibleFrameLine ≤ L) (h2 : L < frameHeight cfg)
    (h3 : cfg.activeVideoStart ≤ h) (h4 : h < cfg.activeVideoEnd) :
    (split3D cfg cur FrameBuffer.initial).clp2 L h =
      -((rawSample cfg cur.rawbuffer L h / 2 : ℕ) : ℚ) := by
  rw [split3D_clp2_eval, if_pos (by omega)]
  show split3Dvalue (rawSample cfg FrameBuffer.initial.rawbuffer L h) _ = _
  rw [show FrameBuffer.initial.rawbuffer = [] from rfl, rawSample_nil]
  unfold split3Dvalue
  rw [show ((0 : ℕ) : ℤ) - (rawSample cfg cur.rawbuffer L h : ℤ)
      = 0 - (rawSample cfg cur.rawbuffer L h : ℤ) by norm_num, cdiv_zero_sub,
    Int.cast_neg, Int.cast_natCast]

/-- Claim C1, witness: the amended theorem applied at the concrete first-call
fixture. -/
theorem split3D_first_frame_neg_half_witness :
    (split3D cfgA fbC1 FrameBuffer.initial).clp2 0 16 =
      -((rawSample cfgA fbC1.rawbuffer 0 16 / 2 : ℕ) : ℚ) :=
  split3D_first_frame_neg_half cfgA fbC1 0 16 (by decide) (by decide)
    (by decide) (by decide)

/-- Claim C4, counterexample: at a concrete input on a line whose
phase-inversion state is false, the value `split1D` stores is the raw chroma
sample itself, not the sign-corrected one the spec describes (the source
negates `tc1` before filtering and negates it back before the store). -/
theorem split1D_claim_cex :
    (split1D dEmpty cfgA1 fbC4).clp0 0 16 ≠ split1DspecValue cfgA1 fbC4 0 16 := by
  rw [split1D_clp0_eval dEmpty cfgA1 fbC4 0 16 (by decide) (by decide)
    (by decide) (by decide)]
  unfold split1DspecValue
  rw [show invertAt cfgA1.firstVisibleFrameLine
      (tbInit fbC4.firstFieldPhaseID fbC4.secondFieldPhaseID) 0 = false from
      by decide]
  have hb : tc1base cfgA1 fbC4.rawbuffer 0 16 = 5 := by
    have ha : rawSample cfgA1 fbC4.rawbuffer 0 18 = 10 := by decide
    have hc : rawSample cfgA1 fbC4.rawbuffer 0 14 = 0 := by decide
    have hd : rawSample cfgA1 fbC4.rawbuffer 0 16 = 0 := by decide
    unfold tc1base
    rw [show (16 : ℕ) + 2 = 18 from rfl, show (16 : ℕ) - 2 = 14 from rfl,
      ha, hc, hd]
    norm_num
  rw [hb]
  norm_num

/-- Claim C4 (amended): for every visible line and active column, the value
`split1D` stores as the 1D chroma estimate equals
`avg(sample[h-2], sample[h+2]) - sample[h]` with NO dependence on the line's
phase-inversion state: the sign correction is applied to the filtered
intermediate `tc1f` only and is undone on `tc1` before the store. -/
theorem split1D_store_unsigned (d : DeempCoeffs) (cfg : Configuration)
    (fb : FrameBuffer) (L h : ℕ)
    (h1 : cfg.firstVisibleFrameLine ≤ L) (h2 : L < frameHeight cfg)
    (h3 : cfg.activeVideoStart ≤ h) (h4 : h < cfg.activeVideoEnd) :
    (split1D d cfg fb).clp0 L h = tc1base cfg fb.rawbuffer L h :=
  split1D_clp0_eval d cfg fb L h h1 h2 h3 h4

/-- Claim C4, witness: the amended theorem applied at the concrete fixture. -/
theorem split1D_store_unsigned_witness :
    (split1D dEmpty cfgA1 fbC4).clp0 0 16 = tc1base cfgA1 fbC4.rawbuffer 0 16 :=
  split1D_store_unsigned dEmpty cfgA1 fbC4 0 16 (by decide) (by decide)
    (by decide) (by decide)

/-- Claim C3, counterexample: at a concrete input whose two confidence
weights are both 1/2, the stored 2D estimate is the claim's formula times
the gain `sc = 2`, hence not equal to the claim's formula. -/
theorem split2D_claim_cex :
    (split2D cfgB fbB).clp1 4 16 ≠
      split2DspecValue (irescale cfgB) fbB.clp0 4 16 := by
  rw [split2D_clp1_eval, if_pos (by decide)]
  have hire : irescale cfgB = 1 := by
    unfold irescale
    rw [show cdiv (cfgB.whiteIre - cfgB.blackIre) 100 = 1 from by decide]
    norm_num
  show split2Dvalue (irescale cfgB) fbB.clp0 4 16 ≠ _
  norm_num [split2Dvalue, split2DspecValue, split2Dweights, clamp, hire,
    fbB, mkFb, fbBclp]

/-- Claim C3 (amended): for every populated 1D plane, every row in the loop
range with `firstVisibleFrameLine ≤ row`, `4 ≤ row < frameHeight - 1` and
every active column, the 2D estimate written by `split2D` equals
`((C[row]-C[row-2])·kp·sc + (C[row]-C[row+2])·kn·sc) / 8` — the claim's
formula with the additional gain factor `sc = max(1, 2/(kp+kn))` — where
`kp`, `kn`, `sc` are the weights after clamping, the 3x tie-break zeroing
and the degenerate both-zero rule; every other cell of the 2D plane
(including rows of the loop range below `firstVisibleFrameLine`) is left
unset. -/
theorem split2D_estimate_formula (cfg : Configuration) (fb : FrameBuffer) :
    (∀ L h, cfg.firstVisibleFrameLine ≤ L → 4 ≤ L → L < frameHeight cfg - 1 →
      cfg.activeVideoStart ≤ h → h < cfg.activeVideoEnd →
      (split2D cfg fb).clp1 L h = split2Dvalue (irescale cfg) fb.clp0 L h) ∧
    (∀ L h, L < cfg.firstVisibleFrameLine ∨ L < 4 ∨ frameHeight cfg - 1 ≤ L ∨
        h < cfg.activeVideoStart ∨ cfg.activeVideoEnd ≤ h →
      (split2D cfg fb).clp1 L h = fb.clp1 L h) := by
  constructor
  · intro L h hA hB hC hD hE
    rw [split2D_clp1_eval, if_pos (by omega)]
  · intro L h hd
    rw [split2D_clp1_eval, if_neg (by omega)]

/-- Claim C3, witness: the amended theorem applied at the concrete fixture,
in both the written-value and the left-unset case. -/
theorem split2D_estimate_formula_witness :
    (split2D cfgB fbB).clp1 4 16 = split2Dvalue (irescale cfgB) fbB.clp0 4 16 ∧
    (split2D cfgB fbB).clp1 0 16 = fbB.clp1 0 16 :=
  ⟨(split2D_estimate_formula cfgB fbB).1 4 16 (by decide) (by decide)
      (by decide) (by decide) (by decide),
    (split2D_estimate_formula cfgB fbB).2 0 16 (Or.inl (by decide))⟩

set_option maxHeartbeats 1600000 in
/-- Claim C8: under `whiteIre > blackIre`, for all finite inputs, the 2D
confidence weights `kp` and `kn` both lie in `[0, 1]` at the point they are
used to form the estimate — after the clamp into `[0, 1]`, the 3x tie-break
zeroing and the degenerate both-zero rule. -/
theorem split2D_weights_unit_interval (cfg : Configuration)
    (C0 C1 P0 P1 N0 N1 : ℚ) (_hwb : cfg.blackIre < cfg.whiteIre) :
    (0 ≤ (split2Dweights (irescale cfg) C0 C1 P0 P1 N0 N1).1 ∧
      (split2Dweights (irescale cfg) C0 C1 P0 P1 N0 N1).1 ≤ 1) ∧
    (0 ≤ (split2Dweights (irescale cfg) C0 C1 P0 P1 N0 N1).2.1 ∧
      (split2Dweights (irescale cfg) C0 C1 P0 P1 N0 N1).2.1 ≤ 1) := by
  simp only [split2Dweights]
  split_ifs <;>
    refine ⟨⟨?_, ?_⟩, ?_, ?_⟩ <;>
      first
        | exact (clamp_unit_mem _).1
        | exact (clamp_unit_mem _).2
        | norm_num

/-- Claim C8, witness: the theorem applied at a concrete configuration and
all-zero inputs. -/
theorem split2D_weights_unit_interval_witness :
    (0 ≤ (split2Dweights (irescale cfgA) 0 0 0 0 0 0).1 ∧
      (split2Dweights (irescale cfgA) 0 0 0 0 0 0).1 ≤ 1) ∧
    (0 ≤ (split2Dweights (irescale cfgA) 0 0 0 0 0 0).2.1 ∧
      (split2Dweights (irescale cfgA) 0 0 0 0 0 0).2.1 ≤ 1) :=
  split2D_weights_unit_interval cfgA 0 0 0 0 0 0 (by decide)

/-- Claim C6: the chroma noise reducer `doCNR` is the identity on the YIQ
buffer for every filter-coefficient table, configuration and input: since
the threshold factor is fixed at `0.0`, the clipped residual is always 0 and
the subtraction leaves every pixel's Y, I, and Q unchanged. -/
theorem doCNR_identity (nrc : List ℚ) (cfg : Configuration) (yb : YiqBuf) :
    doCNR nrc cfg yb = yb := by
  simp only [doCNR]
  refine foldRange_pres _ (fun s : CNRState => s.buf = yb) ?_ _ _ _ rfl
  intro L s hs
  beta_reduce
  refine foldRange_pres _ (fun t : CNRState => t.buf = yb) ?_ _ _ _ ?_
  · intro h t ht
    beta_reduce
    show upd2 t.buf L h _ = yb
    rw [zero_mul, nrClip_zero_thr, nrClip_zero_thr, sub_zero, sub_zero, ht]
    exact upd2_self yb L h
  · refine foldRange_pres _ (fun t : CNRState => t.buf = yb) ?_ _ _ _ hs
    intro h t ht
    exact ht

/-- Claim C5: for every input YIQ buffer and configuration, `filterIQ`
produces identical output with the high-quality variant selected and with
the standard one, the `deemp.h` tables being modelled per the spec with the
high-quality wiring bound to the same coefficients as the standard wiring. -/
theorem filterIQ_hq_equals_standard (c nr nrc : List ℚ) (cfg : Configuration)
    (yb : YiqBuf) :
    filterIQ (specDeempCoeffs c nr nrc) { cfg with colorlpf_hq := true } yb =
      filterIQ (specDeempCoeffs c nr nrc) { cfg with colorlpf_hq := false } yb := by
  simp [filterIQ, specDeempCoeffs, frameHeight]

theorem adjustYpix_congr (yb yb' : YiqBuf) (L : ℕ) (inv : Bool) (h : ℕ)
    (he : yb L (h + 2) = yb' L (h + 2)) :
    adjustYpix yb L inv h = adjustYpix yb' L inv h := by
  unfold adjustYpix
  rw [he]

theorem adjustY_cols_eval (L : ℕ) (inv : Bool) (orig : YiqBuf) :
    ∀ (k h0 : ℕ) (yb : YiqBuf),
      (∀ h', h0 ≤ h' → yb L h' = orig L h') →
      ((∀ h', h0 ≤ h' → h' < h0 + k →
          foldRange (fun h b => adjustYcol L inv h b) k h0 yb L h' =
            adjustYpix orig L inv h') ∧
        (∀ h', h' < h0 ∨ h0 + k ≤ h' →
          foldRange (fun h b => adjustYcol L inv h b) k h0 yb L h' = yb L h') ∧
        (∀ L' h', L' ≠ L →
          foldRange (fun h b => adjustYcol L inv h b) k h0 yb L' h' =
            yb L' h')) := by
  intro k
  induction k with
  | zero =>
    intro h0 yb hy
    refine ⟨?_, ?_, ?_⟩
    · intro h' hA hB
      omega
    · intro h' _
      rfl
    · intro L' h' _
      rfl
  | succ k ih =>
    intro h0 yb hy
    simp only [foldRange]
    have hpix : adjustYcol L inv h0 yb =
        upd2 yb L h0 (adjustYpix orig L inv h0) := by
      unfold adjustYcol
      rw [adjustYpix_congr yb orig L inv h0 (hy (h0 + 2) (by omega))]
    have hy1 : ∀ h', h0 + 1 ≤ h' →
        adjustYcol L inv h0 yb L h' = orig L h' := by
      intro h' hh
      rw [hpix, upd2_ne _ _ _ _ _ _ (by omega)]
      exact hy h' (by omega)
    obtain ⟨p1, p2, p3⟩ := ih (h0 + 1) (adjustYcol L inv h0 yb) hy1
    refine ⟨?_, ?_, ?_⟩
    · intro h' hA hB
      by_cases hh : h' = h0
      · rw [hh, p2 h0 (Or.inl (by omega)), hpix]
        exact upd2_same _ _ _ _
      · exact p1 h' (by omega) (by omega)
    · intro h' hd
      rw [p2 h' (by omega), hpix, upd2_ne _ _ _ _ _ _ (by omega)]
    · intro L' h' hne
      rw [p3 L' h' hne, hpix, upd2_ne _ _ _ _ _ _ (by omega)]

theorem adjustY_eval (cfg : Configuration) (yb : YiqBuf) (fpid spid : ℕ)
    (L h : ℕ) (h1 : cfg.firstVisibleFrameLine ≤ L) (h2 : L < frameHeight cfg)
    (h3 : cfg.activeVideoStart ≤ h) (h4 : h < cfg.activeVideoEnd) :
    adjustY cfg yb fpid spid L h =
      adjustYpix yb L
        (invertAt cfg.firstVisibleFrameLine (tbInit fpid spid) L) h := by
  unfold adjustY
  have he := foldLines_eval
    (fun L inv s =>
      foldRange (fun h b => adjustYcol L inv h b)
        (cfg.activeVideoEnd - cfg.activeVideoStart) cfg.activeVideoStart s)
    (fun (b : YiqBuf) L => b L)
    (fun (b : YiqBuf) L inv => fun h' =>
      if cfg.activeVideoStart ≤ h'
          ∧ h' < cfg.activeVideoStart
              + (cfg.activeVideoEnd - cfg.activeVideoStart)
      then adjustYpix b L inv h' else b L h')
    (by
      intro L inv s L' hne
      funext h'
      beta_reduce
      exact (adjustY_cols_eval L inv s _ _ s (fun _ _ => rfl)).2.2 L' h' hne)
    (by
      intro L inv s
      funext h'
      beta_reduce
      by_cases hc : cfg.activeVideoStart ≤ h'
          ∧ h' < cfg.activeVideoStart
              + (cfg.activeVideoEnd - cfg.activeVideoStart)
      · rw [if_pos hc]
        exact (adjustY_cols_eval L inv s _ _ s (fun _ _ => rfl)).1 h' hc.1 hc.2
      · rw [if_neg hc]
        exact (adjustY_cols_eval L inv s _ _ s (fun _ _ => rfl)).2.1 h'
          (by omega))
    (by
      intro L inv s L' inv' hne
      funext h'
      beta_reduce
      have hs : ∀ h'', (foldRange (fun hh b => adjustYcol L inv hh b)
          (cfg.activeVideoEnd - cfg.activeVideoStart) cfg.activeVideoStart s)
            L' h'' = s L' h'' :=
        fun h'' => (adjustY_cols_eval L inv s _ _ s (fun _ _ => rfl)).2.2 L' h''
          hne
      by_cases hc : cfg.activeVideoStart ≤ h'
          ∧ h' < cfg.activeVideoStart
              + (cfg.activeVideoEnd - cfg.activeVideoStart)
      · rw [if_pos hc, if_pos hc]
        exact adjustYpix_congr _ _ _ _ _ (hs (h' + 2))
      · rw [if_neg hc, if_neg hc]
        exact hs h')
    (frameHeight cfg - cfg.firstVisibleFrameLine) cfg.firstVisibleFrameLine
    (tbInit fpid spid) yb L h1 (by omega)
  have he2 := congrFun he h
  simp only at he2
  rw [he2, if_pos (by omega)]

/-- Claim C2, counterexample: at a concrete input, `adjustY` changes the I
component of the pixel at column 16 (it overwrites the whole pixel with the
one read at column 18), contradicting the claim that each pixel's own I and
Q are left unchanged. -/
theorem adjustY_claim_cex :
    (adjustY cfgA ybRamp 1 1 0 16).i ≠ (ybRamp 0 16).i := by
  rw [adjustY_eval cfgA ybRamp 1 1 0 16 (by decide) (by decide) (by decide)
    (by decide)]
  show (adjustYpix ybRamp 0 _ 16).i ≠ _
  unfold adjustYpix ybRamp
  norm_num

/-- Claim C2 (amended): for every YIQ buffer, visible line and active
column, `adjustY` stores at column `h` the ENTIRE pixel read at column
`h + 2` of the original buffer with its Y replaced by that same pixel's Y
plus the correction term selected by phase from that pixel's I or Q
(0→+Q, 1→−I, 2→−Q, 3→+I), sign-corrected by the line's inversion state —
so the stored I and Q are the `h + 2` pixel's values, not the pixel's own,
and the Y base is the `h + 2` pixel's Y. -/
theorem adjustY_shifts_pixel (cfg : Configuration) (yb : YiqBuf)
    (fpid spid : ℕ) (L h : ℕ)
    (h1 : cfg.firstVisibleFrameLine ≤ L) (h2 : L < frameHeight cfg)
    (h3 : cfg.activeVideoStart ≤ h) (h4 : h < cfg.activeVideoEnd) :
    adjustY cfg yb fpid spid L h =
      ⟨(yb L (h + 2)).y + adjustYcomp (yb L (h + 2)) h
          (invertAt cfg.firstVisibleFrameLine (tbInit fpid spid) L),
        (yb L (h + 2)).i, (yb L (h + 2)).q⟩ :=
  adjustY_eval cfg yb fpid spid L h h1 h2 h3 h4

/-- Claim C2, witness: the amended theorem applied at the concrete fixture. -/
theorem adjustY_shifts_pixel_witness :
    adjustY cfgA ybRamp 1 1 0 16 =
      ⟨(ybRamp 0 18).y + adjustYcomp (ybRamp 0 18) 16
          (invertAt cfgA.firstVisibleFrameLine (tbInit 1 1) 0),
        (ybRamp 0 18).i, (ybRamp 0 18).q⟩ :=
  adjustY_shifts_pixel cfgA ybRamp 1 1 0 16 (by decide) (by decide)
    (by decide) (by decide)

theorem siAfter_step (cfg : Configuration) (fb : FrameBuffer) (L : ℕ)
    (inv : Bool) (cs c : ℕ) (hc : cs ≤ c) :
    siAfter cfg fb L inv cs (c + 1) =
      if c % 2 = 1 then splitIQnewI cfg fb L inv c
      else siAfter cfg fb L inv cs c := by
  unfold siAfter
  simp only [Nat.add_sub_cancel]
  by_cases h1 : c % 2 = 1
  · rw [if_neg (by omega), if_pos h1, if_pos h1]
  · rw [if_neg (by omega), if_neg h1, if_neg h1]
    by_cases h2 : c ≤ cs
    · rw [if_pos h2, if_pos (by omega)]
    · rw [if_neg h2, if_neg h2, if_pos (by omega),
        show c + 1 - 2 = c - 1 from by omega]

theorem sqAfter_step (cfg : Configuration) (fb : FrameBuffer) (L : ℕ)
    (inv : Bool) (cs c : ℕ) (hc : cs ≤ c) :
    sqAfter cfg fb L inv cs (c + 1) =
      if c % 2 = 0 then splitIQnewQ cfg fb L inv c
      else sqAfter cfg fb L inv cs c := by
  unfold sqAfter
  simp only [Nat.add_sub_cancel]
  by_cases h1 : c % 2 = 0
  · rw [if_neg (by omega), if_pos h1, if_pos h1]
  · rw [if_neg (by omega), if_neg h1, if_neg h1]
    by_cases h2 : c ≤ cs
    · rw [if_pos h2, if_pos (by omega)]
    · rw [if_neg h2, if_neg h2, if_pos (by omega),
        show c + 1 - 2 = c - 1 from by omega]

theorem splitIQcol_si (cfg : Configuration) (fb : FrameBuffer) (L : ℕ)
    (inv : Bool) (cs c : ℕ) (hc : cs ≤ c) (s : ℚ × ℚ × YiqBuf)
    (hsi : s.1 = siAfter cfg fb L inv cs c) :
    (splitIQcol cfg fb L inv c s).1 = siAfter cfg fb L inv cs (c + 1) := by
  simp only [splitIQcol]
  rw [siAfter_step cfg fb L inv cs c hc]
  by_cases h1 : c % 4 = 1
  · rw [if_pos h1, if_pos (by omega)]
    unfold splitIQnewI
    rw [if_pos h1]
  · by_cases h3 : c % 4 = 3
    · rw [if_neg h1, if_pos h3, if_pos (by omega)]
      unfold splitIQnewI
      rw [if_neg h1]
    · rw [if_neg h1, if_neg h3, if_neg (by omega)]
      exact hsi

theorem splitIQcol_sq (cfg : Configuration) (fb : FrameBuffer) (L : ℕ)
    (inv : Bool) (cs c : ℕ) (hc : cs ≤ c) (s : ℚ × ℚ × YiqBuf)
    (hsq : s.2.1 = sqAfter cfg fb L inv cs c) :
    (splitIQcol cfg fb L inv c s).2.1 = sqAfter cfg fb L inv cs (c + 1) := by
  simp only [splitIQcol]
  rw [sqAfter_step cfg fb L inv cs c hc]
  by_cases h0 : c % 4 = 0
  · rw [if_pos h0, if_pos (by omega)]
    unfold splitIQnewQ
    rw [if_pos h0]
  · by_cases h2 : c % 4 = 2
    · rw [if_neg h0, if_pos h2, if_pos (by omega)]
      unfold splitIQnewQ
      rw [if_neg h0]
    · rw [if_neg h0, if_neg h2, if_neg (by omega)]
      exact hsq

theorem splitIQ_cols_eval (cfg : Configuration) (fb : FrameBuffer) (L : ℕ)
    (inv : Bool) (cs : ℕ) :
    ∀ (k j : ℕ) (si sq : ℚ) (yb : YiqBuf),
      si = siAfter cfg fb L inv cs (cs + j) →
      sq = sqAfter cfg fb L inv cs (cs + j) →
      ((∀ h', cs + j ≤ h' → h' < cs + j + k →
          (foldRange (splitIQcol cfg fb L inv) k (cs + j) (si, sq, yb)).2.2
              L h' =
            ⟨(rawSample cfg fb.rawbuffer L h' : ℚ),
              siAfter cfg fb L inv cs (h' + 1),
              sqAfter cfg fb L inv cs (h' + 1)⟩) ∧
        (∀ L' h', L' ≠ L ∨ h' < cs + j ∨ cs + j + k ≤ h' →
          (foldRange (splitIQcol cfg fb L inv) k (cs + j) (si, sq, yb)).2.2
              L' h' = yb L' h')) := by
  intro k
  induction k with
  | zero =>
    intro j si sq yb hsi hsq
    refine ⟨?_, ?_⟩
    · intro h' hA hB
      omega
    · intro L' h' _
      rfl
  | succ k ih =>
    intro j si sq yb hsi hsq
    simp only [foldRange]
    have hSI := splitIQcol_si cfg fb L inv cs (cs + j) (by omega)
      (si, sq, yb) hsi
    have hSQ := splitIQcol_sq cfg fb L inv cs (cs + j) (by omega)
      (si, sq, yb) hsq
    have hstep : splitIQcol cfg fb L inv (cs + j) (si, sq, yb) =
        ((splitIQcol cfg fb L inv (cs + j) (si, sq, yb)).1,
          (splitIQcol cfg fb L inv (cs + j) (si, sq, yb)).2.1,
          upd2 yb L (cs + j)
            ⟨(rawSample cfg fb.rawbuffer L (cs + j) : ℚ),
              (splitIQcol cfg fb L inv (cs + j) (si, sq, yb)).1,
              (splitIQcol cfg fb L inv (cs + j) (si, sq, yb)).2.1⟩) := by
      simp only [splitIQcol]
    have hj1 : cs + j + 1 = cs + (j + 1) := by omega
    obtain ⟨q1, q2⟩ := ih (j + 1)
      (splitIQcol cfg fb L inv (cs + j) (si, sq, yb)).1
      (splitIQcol cfg fb L inv (cs + j) (si, sq, yb)).2.1
      (upd2 yb L (cs + j)
        ⟨(rawSample cfg fb.rawbuffer L (cs + j) : ℚ),
          (splitIQcol cfg fb L inv (cs + j) (si, sq, yb)).1,
          (splitIQcol cfg fb L inv (cs + j) (si, sq, yb)).2.1⟩)
      (by rw [hSI, hj1]) (by rw [hSQ, hj1])
    refine ⟨?_, ?_⟩
    · intro h' hA hB
      rw [show cs + j + 1 = cs + (j + 1) from by omega, hstep]
      by_cases hh : h' = cs + j
      · rw [hh, q2 L (cs + j) (Or.inr (Or.inl (by omega))), upd2_same,
          hSI, hSQ]
      · rw [q1 h' (by omega) (by omega)]
    · intro L' h' hd
      rw [show cs + j + 1 = cs + (j + 1) from by omega, hstep,
        q2 L' h' (by omega), upd2_ne _ _ _ _ _ _ (by omega)]

theorem splitIQline_eval (cfg : Configuration) (fb : FrameBuffer) (L : ℕ)
    (inv : Bool) (yb : YiqBuf) (L' h' : ℕ) :
    splitIQline cfg fb L inv yb L' h' =
      if L' = L ∧ cfg.activeVideoStart ≤ h'
          ∧ h' < cfg.activeVideoStart
              + (cfg.activeVideoEnd - cfg.activeVideoStart)
      then ⟨(rawSample cfg fb.rawbuffer L h' : ℚ),
        siAfter cfg fb L inv cfg.activeVideoStart (h' + 1),
        sqAfter cfg fb L inv cfg.activeVideoStart (h' + 1)⟩
      else yb L' h' := by
  unfold splitIQline
  obtain ⟨p1, p2⟩ := splitIQ_cols_eval cfg fb L inv cfg.activeVideoStart
    (cfg.activeVideoEnd - cfg.activeVideoStart) 0 0 0 yb
    (by unfold siAfter; rw [if_pos (by omega)])
    (by unfold sqAfter; rw [if_pos (by omega)])
  simp only [Nat.add_zero] at p1 p2
  by_cases hc : L' = L ∧ cfg.activeVideoStart ≤ h'
      ∧ h' < cfg.activeVideoStart
          + (cfg.activeVideoEnd - cfg.activeVideoStart)
  · rw [if_pos hc, ← hc.1]
    exact hc.1 ▸ p1 h' hc.2.1 hc.2.2
  · rw [if_neg hc]
    by_cases hL : L' = L
    · exact p2 L' h' (Or.inr (by omega))
    · exact p2 L' h' (Or.inl hL)

theorem splitIQ_yiq_eval (cfg : Configuration) (fb : FrameBuffer) (L h : ℕ)
    (h1 : cfg.firstVisibleFrameLine ≤ L) (h2 : L < frameHeight cfg)
    (h3 : cfg.activeVideoStart ≤ h) (h4 : h < cfg.activeVideoEnd) :
    (splitIQ cfg fb).yiqBuffer L h =
      ⟨(rawSample cfg fb.rawbuffer L h : ℚ),
        siAfter cfg fb L
          (invertAt cfg.firstVisibleFrameLine
            (tbInit fb.firstFieldPhaseID fb.secondFieldPhaseID) L)
          cfg.activeVideoStart (h + 1),
        sqAfter cfg fb L
          (invertAt cfg.firstVisibleFrameLine
            (tbInit fb.firstFieldPhaseID fb.secondFieldPhaseID) L)
          cfg.activeVideoStart (h + 1)⟩ := by
  simp only [splitIQ]
  have he := foldLines_eval
    (fun L inv yb => splitIQline cfg fb L inv yb)
    (fun (b : YiqBuf) L => b L)
    (fun (b : YiqBuf) L inv => fun h' =>
      if cfg.activeVideoStart ≤ h'
          ∧ h' < cfg.activeVideoStart
              + (cfg.activeVideoEnd - cfg.activeVideoStart)
      then ⟨(rawSample cfg fb.rawbuffer L h' : ℚ),
        siAfter cfg fb L inv cfg.activeVideoStart (h' + 1),
        sqAfter cfg fb L inv cfg.activeVideoStart (h' + 1)⟩
      else b L h')
    (by
      intro L inv s L' hne
      funext h'
      beta_reduce
      rw [splitIQline_eval, if_neg (fun hx => hne hx.1)])
    (by
      intro L inv s
      funext h'
      beta_reduce
      rw [splitIQline_eval]
      by_cases hc : cfg.activeVideoStart ≤ h'
          ∧ h' < cfg.activeVideoStart
              + (cfg.activeVideoEnd - cfg.activeVideoStart)
      · rw [if_pos ⟨rfl, hc.1, hc.2⟩, if_pos hc]
      · rw [if_neg (fun hx => hc ⟨hx.2.1, hx.2.2⟩), if_neg hc])
    (by
      intro L inv s L' inv' hne
      funext h'
      beta_reduce
      by_cases hc : cfg.activeVideoStart ≤ h'
          ∧ h' < cfg.activeVideoStart
              + (cfg.activeVideoEnd - cfg.activeVideoStart)
      · rw [if_pos hc, if_pos hc]
      · rw [if_neg hc, if_neg hc, splitIQline_eval,
          if_neg (fun hx => hne hx.1)])
    (frameHeight cfg - cfg.firstVisibleFrameLine) cfg.firstVisibleFrameLine
    (tbInit fb.firstFieldPhaseID fb.secondFieldPhaseID)
    (fun _ _ => ⟨0, 0, 0⟩) L h1 (by omega)
  have he2 := congrFun he h
  simp only at he2
  rw [he2, if_pos (by omega)]

/-- Claim C10: in `splitIQ`, every active column with `h mod 4` in `{0, 2}`
(an even column) computes a new Q value and every column with `h mod 4` in
`{1, 3}` (an odd column) computes a new I value, while the written pixel's
other channel holds the value produced at the most recent earlier column of
the same line that updated it — column `h - 1`, of opposite parity — or 0
for the first column of the line (`si` and `sq` are reset to 0 at the start
of every line). -/
theorem splitIQ_channel_routing (cfg : Configuration) (fb : FrameBuffer)
    (L h : ℕ)
    (h1 : cfg.firstVisibleFrameLine ≤ L) (h2 : L < frameHeight cfg)
    (h3 : cfg.activeVideoStart ≤ h) (h4 : h < cfg.activeVideoEnd) :
    ((h % 4 = 0 ∨ h % 4 = 2) →
      ((splitIQ cfg fb).yiqBuffer L h).q =
        splitIQnewQ cfg fb L
          (invertAt cfg.firstVisibleFrameLine
            (tbInit fb.firstFieldPhaseID fb.secondFieldPhaseID) L) h ∧
      ((splitIQ cfg fb).yiqBuffer L h).i =
        (if h = cfg.activeVideoStart then 0
          else splitIQnewI cfg fb L
            (invertAt cfg.firstVisibleFrameLine
              (tbInit fb.firstFieldPhaseID fb.secondFieldPhaseID) L)
            (h - 1))) ∧
    ((h % 4 = 1 ∨ h % 4 = 3) →
      ((splitIQ cfg fb).yiqBuffer L h).i =
        splitIQnewI cfg fb L
          (invertAt cfg.firstVisibleFrameLine
            (tbInit fb.firstFieldPhaseID fb.secondFieldPhaseID) L) h ∧
      ((splitIQ cfg fb).yiqBuffer L h).q =
        (if h = cfg.activeVideoStart then 0
          else splitIQnewQ cfg fb L
            (invertAt cfg.firstVisibleFrameLine
              (tbInit fb.firstFieldPhaseID fb.secondFieldPhaseID) L)
            (h - 1))) := by
  rw [splitIQ_yiq_eval cfg fb L h h1 h2 h3 h4]
  refine ⟨?_, ?_⟩
  · intro hev
    constructor
    · show sqAfter _ _ _ _ _ (h + 1) = _
      rw [sqAfter_step _ _ _ _ _ _ h3, if_pos (by omega)]
    · show siAfter _ _ _ _ _ (h + 1) = _
      rw [siAfter_step _ _ _ _ _ _ h3, if_neg (by omega)]
      unfold siAfter
      by_cases hh : h = cfg.activeVideoStart
      · rw [if_pos (by omega), if_pos hh]
      · rw [if_neg (by omega), if_pos (by omega), if_neg hh]
  · intro hodd
    constructor
    · show siAfter _ _ _ _ _ (h + 1) = _
      rw [siAfter_step _ _ _ _ _ _ h3, if_pos (by omega)]
    · show sqAfter _ _ _ _ _ (h + 1) = _
      rw [sqAfter_step _ _ _ _ _ _ h3, if_neg (by omega)]
      unfold sqAfter
      by_cases hh : h = cfg.activeVideoStart
      · rw [if_pos (by omega), if_pos hh]
      · rw [if_neg (by omega), if_pos (by omega), if_neg hh]

/-- Claim C10, witness: the theorem applied at a concrete in-range pixel. -/
theorem splitIQ_channel_routing_witness :
    ((16 % 4 = 0 ∨ 16 % 4 = 2) →
      ((splitIQ cfgA fbC1).yiqBuffer 0 16).q =
        splitIQnewQ cfgA fbC1 0
          (invertAt cfgA.firstVisibleFrameLine (tbInit 1 1) 0) 16 ∧
      ((splitIQ cfgA fbC1).yiqBuffer 0 16).i =
        (if 16 = cfgA.activeVideoStart then 0
          else splitIQnewI cfgA fbC1 0
            (invertAt cfgA.firstVisibleFrameLine (tbInit 1 1) 0) 15)) ∧
    ((16 % 4 = 1 ∨ 16 % 4 = 3) →
      ((splitIQ cfgA fbC1).yiqBuffer 0 16).i =
        splitIQnewI cfgA fbC1 0
          (invertAt cfgA.firstVisibleFrameLine (tbInit 1 1) 0) 16 ∧
      ((splitIQ cfgA fbC1).yiqBuffer 0 16).q =
        (if 16 = cfgA.activeVideoStart then 0
          else splitIQnewQ cfgA fbC1 0
            (invertAt cfgA.firstVisibleFrameLine (tbInit 1 1) 0) 15)) :=
  splitIQ_channel_routing cfgA fbC1 0 16 (by decide) (by decide) (by decide)
    (by decide)

theorem setWord_length (buf : List ℕ) (wi v : ℕ) :
    (setWord buf wi v).length = buf.length := by
  simp [setWord]

theorem yiqToRgbFrame_length (conv : ℤ → ℤ → Bool → Bool → YIQ → ℚ → ℕ × ℕ × ℕ)
    (cfg : Configuration) (yb : YiqBuf) (burst : ℚ) :
    (yiqToRgbFrame conv cfg yb burst).length =
      cfg.fieldWidth * frameHeight cfg * 3 * 2 := by
  unfold yiqToRgbFrame
  refine foldRange_pres _
    (fun l : List ℕ => l.length = cfg.fieldWidth * frameHeight cfg * 3 * 2)
    ?_ _ _ _ (by simp)
  intro L buf hb
  beta_reduce
  refine foldRange_pres _
    (fun l : List ℕ => l.length = cfg.fieldWidth * frameHeight cfg * 3 * 2)
    ?_ _ _ _ hb
  intro h s hs
  beta_reduce
  rw [setWord_length, setWord_length, setWord_length]
  exact hs

theorem overlayOpticalFlowMap_length (cfg : Configuration) (fb : FrameBuffer)
    (rgb : List ℕ) :
    (overlayOpticalFlowMap cfg fb rgb).length = rgb.length := by
  unfold overlayOpticalFlowMap
  refine foldRange_pres _ (fun l : List ℕ => l.length = rgb.length)
    ?_ _ _ _ rfl
  intro L buf hb
  beta_reduce
  refine foldRange_pres _ (fun l : List ℕ => l.length = rgb.length)
    ?_ _ _ _ hb
  intro h s hs
  beta_reduce
  rw [setWord_length, setWord_length, setWord_length]
  exact hs

/-- Claim C7: for every configuration, pair of field buffers, burst level
and phase IDs, the RGB buffer returned by `process` has length exactly
`fieldWidth * frameHeight * 3 * 2` bytes, with `frameHeight` the derived
value `fieldHeight * 2 - 1`. -/
theorem process_output_size (ext : Externals) (st : CombState)
    (f1 f2 : List ℕ) (burst : ℚ) (fpid spid : ℕ) :
    ((process ext st f1 f2 burst fpid spid).1).length =
      st.configuration.fieldWidth * frameHeight st.configuration * 3 * 2 ∧
    frameHeight st.configuration = st.configuration.fieldHeight * 2 - 1 := by
  refine ⟨?_, rfl⟩
  unfold process
  cases hc : st.configuration.use3D
  · simp only [hc, Bool.false_eq_true, if_false]
    exact yiqToRgbFrame_length _ _ _ _
  · simp only [hc, if_true]
    cases hs : st.configuration.showOpticalFlowMap
    · simp only [hs, Bool.false_eq_true, if_false]
      exact yiqToRgbFrame_length _ _ _ _
    · simp only [hs, if_true]
      rw [overlayOpticalFlowMap_length]
      exact yiqToRgbFrame_length _ _ _ _

/-- Claim C9: with 3D mode disabled, the output of `process` is a function
of the current call's inputs only: two calls with identical field buffers,
burst level, phase IDs and configuration but arbitrarily different retained
previous-frame buffers return identical output, and the state (in
particular the previous-frame buffer) is left unmodified. -/
theorem process_no3D_state_independent (ext : Externals)
    (cfg : Configuration) (p1 p2 : FrameBuffer) (f1 f2 : List ℕ) (burst : ℚ)
    (fpid spid : ℕ) (h3d : cfg.use3D = false) :
    (process ext ⟨cfg, p1⟩ f1 f2 burst fpid spid).1 =
      (process ext ⟨cfg, p2⟩ f1 f2 burst fpid spid).1 ∧
    (process ext ⟨cfg, p1⟩ f1 f2 burst fpid spid).2 = ⟨cfg, p1⟩ := by
  unfold process
  simp only [h3d, Bool.false_eq_true, if_false]
  constructor
  · first | rfl | trivial
  · first | rfl | trivial

/-- Claim C9, witness: the theorem applied at a concrete configuration with
two different previous-frame buffers. -/
theorem process_no3D_state_independent_witness :
    (process extZ ⟨cfgA, FrameBuffer.initial⟩ [] [] 0 1 1).1 =
      (process extZ ⟨cfgA, fbC1⟩ [] [] 0 1 1).1 ∧
    (process extZ ⟨cfgA, FrameBuffer.initial⟩ [] [] 0 1 1).2 =
      ⟨cfgA, FrameBuffer.initial⟩ :=
  process_no3D_state_independent extZ cfgA FrameBuffer.initial fbC1 [] [] 0
    1 1 rfl

end Comb
